import Mathlib

/-!
The wtf dashboard: breach lookup client, todoist display, home-directory expansion

A shallow embedding of three Go source files of the dashboard:

* `modules/hibp/client.go`   (namespace `hibp`)
* `modules/todoist/display.go` (namespace `todoist`)
* `cfg/config_files.go`      (namespace `cfg`)

Conventions of the embedding.

* A Go `string` is a Lean `String`.  The source indexes bytes only at positions
  that it compares with ASCII characters (`path[0]`, `path[1]`); on a UTF-8
  string a byte equals an ASCII character exactly when the character at that
  place is that character, so these reads are modelled on characters.
* A Go `error` value is `GoError` (its message); a variable of type `error` is an
  `Option GoError`, with `none` for `nil`.  A pointer result `*T` is an `Option T`.
* Functions of the standard library or of third-party packages that perform I/O
  or that are not part of the repository are parameters of the model.
* A Go `time.Time` is an instant on the time line, an integer count of seconds
  since the Unix epoch; `After` is the strict order on instants.
-/

set_option autoImplicit false
set_option linter.dupNamespace false

/-- A Go `error` value that is not `nil`, identified with its message. -/
abbrev GoError := String

/-- A Go `time.Time`: an instant, in seconds since the Unix epoch. -/
abbrev Time := Int

/-- Go `t.After(u)`: the instant `t` is strictly after the instant `u`. -/
def Time.After (t u : Time) : Bool := decide (u < t)

namespace hibp

/-- Go constant `apiURL`. -/
def apiURL : String := "https://haveibeenpwned.com/api/breachedaccount/"

/-- Go constant `apiVersion`. -/
def apiVersion : String := "application/vnd.haveibeenpwned.v2+json"

/-- Go constant `clientTimeoutSecs`. -/
def clientTimeoutSecs : Nat := 2

/-- Go constant `userAgent`. -/
def userAgent : String := "WTFUtil"

/-- The settings of the widget.  Their type is declared outside `client.go`, which
only calls the two methods `HasSince()` and `SinceDate()`; the record holds what
each of the two calls returns, and both are parameters of the model. -/
structure Settings where
  /-- The value of `widget.settings.HasSince()`. -/
  HasSince : Bool
  /-- The value of `widget.settings.SinceDate()`: a date or an error. -/
  SinceDate : Except GoError Time

/-- The widget, with the declarations of package `hibp` that `client.go` uses and
that live in other files, as parameters: `Breach` is the record type (a type
parameter) and `BreachDate` is its method `breach.BreachDate()`, returning a date
or an error. -/
structure Widget (Breach : Type) where
  /-- The field `widget.settings`. -/
  settings : Settings
  /-- The method `breach.BreachDate()`. -/
  BreachDate : Breach → Except GoError Time

/-- Modelled from the spec: `Status` is "a logical subject identifier and an ordered sequence
of domain records". -/
structure Status (Breach : Type) where
  /-- The account the status describes. -/
  Account : String
  /-- The breach records, in order. -/
  Breaches : List Breach

/-- Modelled from the spec: the constructor `NewStatus(account, breaches)` of the
absent file builds the status of that account with those records. -/
def NewStatus {Breach : Type} (acct : String) (breaches : List Breach) : Status Breach :=
  { Account := acct, Breaches := breaches }

/-- One iteration of the `for _, breach := range breaches` loop of `filterBreaches`:
the value of `latestBreaches` after the body has run on `breach`. -/
def filterStep {Breach : Type} (widget : Widget Breach) (sinceDate : Time)
    (latestBreaches : List Breach) (breach : Breach) : List Breach :=
  match widget.BreachDate breach with
  | .error _ => latestBreaches ++ [breach]
  | .ok breachDate =>
    if breachDate.After sinceDate then latestBreaches ++ [breach] else latestBreaches

/-- Go `func (widget *Widget) filterBreaches(breaches []Breach) []Breach`. -/
def filterBreaches {Breach : Type} (widget : Widget Breach) (breaches : List Breach) :
    List Breach :=
  if !widget.settings.HasSince then
    breaches
  else
    match widget.settings.SinceDate with
    | .error _ => breaches
    | .ok sinceDate => breaches.foldl (filterStep widget sinceDate) []

/-- The test the claims put in words for a since boundary `D`: the breach date
"either fails to parse or is strictly after `D`". -/
def keptSince {Breach : Type} (widget : Widget Breach) (D : Time) (breach : Breach) : Bool :=
  match widget.BreachDate breach with
  | .error _ => true
  | .ok breachDate => decide (D < breachDate)

/-- Go `func (widget *Widget) fullURL(account string, truncated bool) string`. -/
def fullURL (account : String) (truncated : Bool) : String :=
  let truncStr := if truncated == true then "true" else "false"
  apiURL ++ account ++ ("?truncateResponse=" ++ truncStr)

/-- Modelled from the spec: the breach record of the absent file, "each with at least a
breach-date field usable for since-filtering": a name and the date as text. -/
structure Breach where
  /-- The name of the breach. -/
  Name : String
  /-- The breach date, as the text the service sent. -/
  Date : String
deriving DecidableEq, Repr

/-- The value of a decimal digit character. -/
def digit? (c : Char) : Option Nat :=
  if '0' ≤ c ∧ c ≤ '9' then some (c.toNat - '0'.toNat) else none

/-- The number written by a sequence of decimal digits, most significant first. -/
def digits? : List Char → Option Nat
  | [] => some 0
  | c :: rest =>
    match digit? c, digits? rest with
    | some d, some n => some (d * 10 ^ rest.length + n)
    | _, _ => none

/-- Whether `y` is a leap year of the Gregorian calendar. -/
def isLeap (y : Nat) : Bool := (y % 4 == 0 && y % 100 != 0) || y % 400 == 0

/-- The number of days of month `m` (1 to 12) of year `y`; 0 for any other `m`. -/
def daysIn (y m : Nat) : Nat :=
  if m == 2 then (if isLeap y then 29 else 28)
  else if m == 4 || m == 6 || m == 9 || m == 11 then 30
  else if 1 ≤ m && m ≤ 12 then 31
  else 0

/-- The number of days from 1970-01-01 to the Gregorian date `y-m-d`. -/
def daysFromCivil (y m d : Nat) : Int :=
  let y1 := if m ≤ 2 then y + 399 else y + 400
  let era := y1 / 400
  let yoe := y1 % 400
  let mp := if m > 2 then m - 3 else m + 9
  let doy := (153 * mp + 2) / 5 + d - 1
  let doe := yoe * 365 + yoe / 4 - yoe / 100 + doy
  ((era * 146097 + doe : Nat) : Int) - 719468 - 146097

/-- Modelled from the spec: the date parser of the absent files, for dates written as in the
scenario of the spec, `2023-01-01`: a four-digit year, a two-digit month and a
two-digit day separated by `-`, naming a day of the calendar.  The result is
the instant of midnight UTC of that day. -/
def parseDate (s : String) : Except GoError Time :=
  match s.data with
  | [y1, y2, y3, y4, s1, m1, m2, s2, d1, d2] =>
    match digits? [y1, y2, y3, y4], digits? [m1, m2], digits? [d1, d2] with
    | some y, some m, some d =>
      if s1 == '-' && s2 == '-' && 1 ≤ m && m ≤ 12 && 1 ≤ d && d ≤ daysIn y m then
        .ok (86400 * daysFromCivil y m d)
      else
        .error ("parsing time " ++ s ++ ": out of range")
    | _, _, _ => .error ("parsing time " ++ s ++ ": not a number")
  | _ => .error ("parsing time " ++ s ++ ": wrong length")

/-- Modelled from the spec: the settings of a widget "configured with `since = ...`":
the since value is present when the text is not empty and is a date. -/
def settingsOf (since : String) : Settings :=
  { HasSince := since != "" && (parseDate since).toBool
    SinceDate := parseDate since }

/-- Modelled from the spec: the widget "configured with `since = ...`" over the records
`Breach`, whose `BreachDate()` parses the date text of the record. -/
def widgetOf (since : String) : Widget Breach :=
  { settings := settingsOf since
    BreachDate := fun breach => parseDate breach.Date }

/-- Go `*http.Request`, as far as `client.go` touches it: the method, the URL and
the header fields. -/
structure Request where
  /-- The HTTP method. -/
  Method : String
  /-- The URL the request was built from. -/
  URL : String
  /-- The header fields, as key and value pairs. -/
  Header : List (String × String)
deriving DecidableEq, Repr

/-- Go `request.Header.Set(key, value)`: the entry of `key` is replaced by `value`. -/
def Request.Set (request : Request) (key value : String) : Request :=
  { request with Header := (key, value) :: request.Header.filter (fun kv => kv.1 != key) }

/-- Go `*http.Response`, as far as `client.go` touches it: what `ioutil.ReadAll`
yields on `response.Body`, the bytes of the body or a read error. -/
structure Response where
  /-- The outcome of reading the body to its end. -/
  Body : Except GoError (List UInt8)

/-- The library functions `fetchForAccount` and `parseResponseBody` call: the
network and the JSON decoder. -/
structure Net (Breach : Type) where
  /-- Go `http.NewRequest(method, url, nil)`. -/
  NewRequest : String → String → Except GoError Request
  /-- Go `hibpClient.Do(request)` for a client with the given timeout in seconds. -/
  Do : Nat → Request → Except GoError Response
  /-- Go `json.Unmarshal(body, &breaches)` on a fresh empty slice: the decoded
  records or the decoding error. -/
  Unmarshal : List UInt8 → Except GoError (List Breach)

/-- A call to one of the library functions, with the arguments it received. -/
inductive Call where
  | NewRequest (method url : String)
  | Do (timeoutSecs : Nat) (request : Request)
  | ReadAll
  | Unmarshal (body : List UInt8)
deriving DecidableEq, Repr

/-- What a run of `fetchForAccount` or `parseResponseBody` did and returned: the
library calls it made, in order, and the Go result pair `(*Status, error)`. -/
structure Outcome (Breach : Type) where
  /-- The library calls made, in order. -/
  calls : List Call
  /-- The first result, `nil` being `none`. -/
  stat : Option (Status Breach)
  /-- The second result, `nil` being `none`. -/
  err : Option GoError

/-- Go `func (widget *Widget) parseResponseBody(account string, body []byte) (*Status, error)`. -/
def parseResponseBody {Breach : Type} (widget : Widget Breach) (net : Net Breach)
    (account : String) (body : List UInt8) : Outcome Breach :=
  if body.length == 0 then
    let stat := NewStatus account []
    { calls := [], stat := some stat, err := none }
  else
    match net.Unmarshal body with
    | .error jsonErr => { calls := [.Unmarshal body], stat := none, err := some jsonErr }
    | .ok breaches =>
      let breaches := filterBreaches widget breaches
      { calls := [.Unmarshal body], stat := some (NewStatus account breaches), err := none }

/-- Go `func (widget *Widget) fetchForAccount(account string, since string) (*Status, error)`.
The variable `err` of the source is bound by `http.NewRequest`; past the check
`if err != nil` it holds `nil`, and it is this variable that the two following
failure branches return. -/
def fetchForAccount {Breach : Type} (widget : Widget Breach) (net : Net Breach)
    (account : String) (since : String) : Outcome Breach :=
  if account == "" then
    { calls := [], stat := none, err := none }
  else
    let asTruncated := if since != "" then false else true
    let url := fullURL account asTruncated
    match net.NewRequest "GET" url with
    | .error err => { calls := [.NewRequest "GET" url], stat := none, err := some err }
    | .ok request =>
      let err : Option GoError := none
      let request := (request.Set "Accept" apiVersion).Set "User-Agent" userAgent
      match net.Do clientTimeoutSecs request with
      | .error _getErr =>
        { calls := [.NewRequest "GET" url, .Do clientTimeoutSecs request], stat := none, err := err }
      | .ok response =>
        match response.Body with
        | .error _readErr =>
          { calls := [.NewRequest "GET" url, .Do clientTimeoutSecs request, .ReadAll],
            stat := none, err := err }
        | .ok body =>
          let parsed := parseResponseBody widget net account body
          let calls := [.NewRequest "GET" url, .Do clientTimeoutSecs request, .ReadAll] ++ parsed.calls
          match parsed.err with
          | some err => { calls := calls, stat := none, err := some err }
          | none => { calls := calls, stat := parsed.stat, err := none }

/-- The URLs handed to `http.NewRequest` in a sequence of library calls. -/
def requestedURLs : List Call → List String
  | [] => []
  | .NewRequest _ url :: rest => url :: requestedURLs rest
  | _ :: rest => requestedURLs rest

/-- The requests handed to `hibpClient.Do` in a sequence of library calls: the
requests that were sent. -/
def sentRequests : List Call → List Request
  | [] => []
  | .Do _ request :: rest => request :: sentRequests rest
  | _ :: rest => sentRequests rest

/-- The query component of a URL text, as the URL syntax (RFC 3986) and Go
`url.Parse` split it: the fragment, from the first `#` on, is cut off, and the
query is what follows the first `?` of what is left; `none` when no `?` is left. -/
def queryOf (url : String) : Option String :=
  match (url.data.takeWhile (fun c => c != '#')).dropWhile (fun c => c != '?') with
  | [] => none
  | _ :: query => some (String.mk query)

/-- The bodies handed to `json.Unmarshal` in a sequence of library calls. -/
def unmarshalledBodies : List Call → List (List UInt8)
  | [] => []
  | .Unmarshal body :: rest => body :: unmarshalledBodies rest
  | _ :: rest => unmarshalledBodies rest

/-- The characters a URL-encoded text is made of: the unreserved characters of a
URL (letters, digits, `-`, `.`, `_`, `~`) and the `%` that starts an escape. -/
def isEncodedChar (c : Char) : Bool :=
  c.isAlphanum || c == '-' || c == '.' || c == '_' || c == '~' || c == '%'

/-- The URL-encoded form the claim on `fullURL` speaks of: a text is in
percent-encoded form when each of its characters is unreserved or `%`, so that no
reserved character such as `?`, `#`, `/` or a space stands in it. -/
def percentEncoded (s : String) : Bool := s.data.all isEncodedChar

/-- A network for examples: every request is built, and `Do` answers with the
given outcome; the decoder answers with the given records or error. -/
def netOf (answer : Except GoError Response) (decoded : Except GoError (List Breach)) :
    Net Breach :=
  { NewRequest := fun method url => .ok { Method := method, URL := url, Header := [] }
    Do := fun _ _ => answer
    Unmarshal := fun _ => decoded }

end hibp

namespace todoist

/-- Go `todoist.Task` of the client library, as far as `display.go` reads it. -/
structure Task where
  /-- The text of the task. -/
  Content : String

/-- Go `todoist.Project` of the client library, as far as `display.go` reads it. -/
structure ProjectInfo where
  /-- The name of the project. -/
  Name : String

/-- The project type of the widget, declared outside `display.go`, as far as the
code reads it: the fields `Project.Name` and `tasks`. -/
structure Project where
  /-- The field `proj.Project`. -/
  Project : ProjectInfo
  /-- The field `proj.tasks`. -/
  tasks : List Task

/-- The widget of package `todoist` as `display.go` uses it.  The methods and
helpers that live in other files or packages are parameters, held as fields. -/
structure Widget where
  /-- The value of `widget.CurrentProject()`, `nil` being `none`. -/
  CurrentProject : Option Project
  /-- The method `widget.RowColor(idx)`. -/
  RowColor : Nat → String
  /-- The library function `tview.Escape`. -/
  Escape : String → String
  /-- The helper `wtf.HighlightableHelper(widget.View, row, idx, offset)`. -/
  HighlightableHelper : String → Nat → Nat → String

/-- The row `display` formats for the task `item` at index `idx`:
the Go call `fmt.Sprintf` with the layout `[%s]| | %s[%s]`. -/
def row (widget : Widget) (idx : Nat) (item : Task) : String :=
  "[" ++ widget.RowColor idx ++ "]| | " ++ widget.Escape item.Content
    ++ "[" ++ widget.RowColor idx ++ "]"

/-- The `for idx, item := range proj.tasks` loop of `display`, started at index
`idx` with the text `str` built so far. -/
def displayLoop (widget : Widget) : Nat → String → List Task → String
  | _, str, [] => str
  | idx, str, item :: rest =>
    displayLoop widget (idx + 1)
      (str ++ widget.HighlightableHelper (row widget idx item) idx item.Content.utf8ByteSize) rest

/-- The arguments of a call `widget.ScrollableWidget.Redraw(title, text, wrap)`. -/
structure Redraw where
  /-- The title. -/
  title : String
  /-- The text. -/
  text : String
  /-- The wrap flag. -/
  wrap : Bool

/-- Go `func (widget *Widget) display()`: the call to `Redraw` it makes, or `none`
when it returns without drawing. -/
def display (widget : Widget) : Option Redraw :=
  match widget.CurrentProject with
  | none => none
  | some proj =>
    let title := "[green]" ++ proj.Project.Name ++ "[white]"
    let str := displayLoop widget 0 "" proj.tasks
    some { title := title, text := str, wrap := false }

end todoist

namespace cfg

/-- Go `*user.User`, as far as `config_files.go` reads it. -/
structure User where
  /-- The field `HomeDir`. -/
  HomeDir : String

/-- The library functions `expandHomeDir` and `home` call. -/
structure OS where
  /-- Go `user.Current()`. -/
  Current : Except GoError User
  /-- Go `filepath.Join(elem...)`. -/
  Join : List String → String

/-- Go `func home() (string, error)`. -/
def home (os : OS) : String × Option GoError :=
  match os.Current with
  | .error err => ("", some err)
  | .ok currentUser =>
    if currentUser.HomeDir == "" then
      ("", some "cannot find user-specific home dir")
    else
      (currentUser.HomeDir, none)

/-- Go `func expandHomeDir(path string) (string, error)`.  `path.data` is the
sequence of characters of `path`; the two indexed reads are at places 0 and 1,
and the second one happens only when place 0 holds the one-byte character `~`,
so byte indices and character indices agree there, as do `len(path) > 1` and
"more than one character". -/
def expandHomeDir (os : OS) (path : String) : String × Option GoError :=
  if path.data.length == 0 then
    (path, none)
  else if path.data[0]? != some '~' then
    (path, none)
  else if path.data.length > 1 && path.data[1]? != some '/' && path.data[1]? != some '\\' then
    ("", some "cannot expand user-specific home dir")
  else
    match home os with
    | (_, some err) => ("", some err)
    | (dir, none) => (os.Join [dir, String.mk (path.data.drop 1)], none)

end cfg

/-! ## Theorems: `hibp.filterBreaches` -/

namespace hibp

theorem filterStep_eq {Breach : Type} (widget : Widget Breach) (D : Time)
    (acc : List Breach) (b : Breach) :
    filterStep widget D acc b = acc ++ (if keptSince widget D b then [b] else []) := by
  unfold filterStep keptSince Time.After
  cases h : widget.BreachDate b with
  | error e => simp
  | ok d =>
    by_cases hd : D < d
    · simp [hd]
    · simp [hd]

theorem foldl_filterStep {Breach : Type} (widget : Widget Breach) (D : Time)
    (breaches acc : List Breach) :
    breaches.foldl (filterStep widget D) acc = acc ++ breaches.filter (keptSince widget D) := by
  induction breaches generalizing acc with
  | nil => simp
  | cons b rest ih =>
    rw [List.foldl_cons, ih, filterStep_eq]
    by_cases hk : keptSince widget D b = true
    · simp [hk]
    · simp [hk]

theorem filterBreaches_of_since {Breach : Type} (widget : Widget Breach) (breaches : List Breach)
    (D : Time) (hHas : widget.settings.HasSince = true)
    (hDate : widget.settings.SinceDate = .ok D) :
    filterBreaches widget breaches = breaches.filter (keptSince widget D) := by
  unfold filterBreaches
  simp [hHas, hDate, foldl_filterStep]

theorem filterBreaches_of_no_since {Breach : Type} (widget : Widget Breach)
    (breaches : List Breach)
    (h : widget.settings.HasSince = false ∨ ∃ e, widget.settings.SinceDate = .error e) :
    filterBreaches widget breaches = breaches := by
  unfold filterBreaches
  rcases h with h | ⟨e, h⟩
  · simp [h]
  · simp [h]

/-- C2: when the since value is present and parses to the date `D`, `filterBreaches`
returns the sub-sequence of the input, in order, of the breaches whose date fails
to parse or is strictly after `D`; a breach whose date parses and is not after `D`
(a date equal to `D` included) is not in the result; for since `2023-01-01` and
records dated `2022-01-01` and `2024-01-01` the result is the second record alone;
and the empty input gives the empty result. -/
theorem filterBreaches_since_spec {Breach : Type} (widget : Widget Breach)
    (breaches : List Breach) (D : Time)
    (hHas : widget.settings.HasSince = true)
    (hDate : widget.settings.SinceDate = .ok D) :
    filterBreaches widget breaches = breaches.filter (keptSince widget D)
    ∧ (filterBreaches widget breaches).Sublist breaches
    ∧ (∀ b ∈ breaches, ∀ e, widget.BreachDate b = .error e → b ∈ filterBreaches widget breaches)
    ∧ (∀ b ∈ breaches, ∀ d, widget.BreachDate b = .ok d → D < d →
        b ∈ filterBreaches widget breaches)
    ∧ (∀ b, ∀ d, widget.BreachDate b = .ok d → d ≤ D → b ∉ filterBreaches widget breaches)
    ∧ (∀ name1 name2 : String,
        filterBreaches (widgetOf "2023-01-01")
          [{ Name := name1, Date := "2022-01-01" }, { Name := name2, Date := "2024-01-01" }]
        = [{ Name := name2, Date := "2024-01-01" }])
    ∧ filterBreaches widget [] = [] := by
  have hf := filterBreaches_of_since widget breaches D hHas hDate
  refine ⟨hf, ?_, ?_, ?_, ?_, ?_, ?_⟩
  · rw [hf]; exact List.filter_sublist breaches
  · intro b hb e he
    rw [hf, List.mem_filter]
    exact ⟨hb, by simp [keptSince, he]⟩
  · intro b hb d hd hlt
    rw [hf, List.mem_filter]
    exact ⟨hb, by simp [keptSince, hd, hlt]⟩
  · intro b d hd hle hmem
    rw [hf, List.mem_filter] at hmem
    have := hmem.2
    simp [keptSince, hd] at this
    exact absurd this (not_lt.mpr hle)
  · intro name1 name2
    rfl
  · rw [filterBreaches_of_since widget [] D hHas hDate]; rfl

/-- Witness of C2: the widget configured with since `2023-01-01`, on three records
dated before, on and after that day. -/
theorem filterBreaches_since_spec_witness :
    (widgetOf "2023-01-01").settings.HasSince = true
    ∧ (widgetOf "2023-01-01").settings.SinceDate = .ok 1672531200
    ∧ filterBreaches (widgetOf "2023-01-01")
        [⟨"a", "2022-01-01"⟩, ⟨"b", "2023-01-01"⟩, ⟨"c", "2024-01-01"⟩]
      = [⟨"c", "2024-01-01"⟩] :=
  ⟨by decide, rfl,
    ((filterBreaches_since_spec (widgetOf "2023-01-01")
      [⟨"a", "2022-01-01"⟩, ⟨"b", "2023-01-01"⟩, ⟨"c", "2024-01-01"⟩] 1672531200
      (by decide) rfl).1).trans (by decide)⟩

/-- C3: whatever the settings are, a breach of the input whose breach date cannot be
parsed is in the output of `filterBreaches`, and so is every occurrence of it: the
input records with an unparsable date form, in order, a sub-sequence of the output. -/
theorem filterBreaches_keeps_unparsable {Breach : Type} (widget : Widget Breach)
    (breaches : List Breach) (b : Breach) (e : GoError)
    (hb : b ∈ breaches) (he : widget.BreachDate b = .error e) :
    b ∈ filterBreaches widget breaches
    ∧ (breaches.filter (fun x => !(widget.BreachDate x).toBool)).Sublist
        (filterBreaches widget breaches) := by
  cases hHas : widget.settings.HasSince with
  | false =>
    rw [filterBreaches_of_no_since widget breaches (Or.inl hHas)]
    exact ⟨hb, List.filter_sublist breaches⟩
  | true =>
    cases hDate : widget.settings.SinceDate with
    | error e2 =>
      rw [filterBreaches_of_no_since widget breaches (Or.inr ⟨e2, hDate⟩)]
      exact ⟨hb, List.filter_sublist breaches⟩
    | ok D =>
      rw [filterBreaches_of_since widget breaches D hHas hDate]
      refine ⟨List.mem_filter.mpr ⟨hb, by simp [keptSince, he]⟩, ?_⟩
      apply List.monotone_filter_right
      intro x hx
      unfold keptSince
      cases hx2 : widget.BreachDate x with
      | error _ => rfl
      | ok d => simp [hx2, Except.toBool] at hx

/-- Witness of C3: a record with the date text `unknown` survives the since
boundary `2023-01-01`. -/
theorem filterBreaches_keeps_unparsable_witness :
    (⟨"b", "unknown"⟩ : Breach) ∈
      filterBreaches (widgetOf "2023-01-01") [⟨"a", "2022-01-01"⟩, ⟨"b", "unknown"⟩] :=
  (filterBreaches_keeps_unparsable (widgetOf "2023-01-01")
    [⟨"a", "2022-01-01"⟩, ⟨"b", "unknown"⟩] ⟨"b", "unknown"⟩
    "parsing time unknown: wrong length" (by decide) rfl).1

/-- C8: when the settings have no since value, or the since value fails to parse,
`filterBreaches` returns the input list unchanged; the function is total and its
result is a list, never an error. -/
theorem filterBreaches_no_since_identity {Breach : Type} (widget : Widget Breach)
    (breaches : List Breach)
    (h : widget.settings.HasSince = false ∨ ∃ e, widget.settings.SinceDate = .error e) :
    filterBreaches widget breaches = breaches :=
  filterBreaches_of_no_since widget breaches h

/-- Witness of C8: the widget with an empty since value returns its two records. -/
theorem filterBreaches_no_since_identity_witness :
    (widgetOf "").settings.HasSince = false
    ∧ filterBreaches (widgetOf "") [⟨"a", "2022-01-01"⟩, ⟨"b", "2024-01-01"⟩]
      = [⟨"a", "2022-01-01"⟩, ⟨"b", "2024-01-01"⟩] :=
  ⟨by decide,
    filterBreaches_no_since_identity (widgetOf "")
      [⟨"a", "2022-01-01"⟩, ⟨"b", "2024-01-01"⟩] (Or.inl (by decide))⟩

end hibp

/-! ## Theorems: `hibp.fullURL`, `hibp.parseResponseBody`, `hibp.fetchForAccount` -/

namespace hibp

theorem string_append_right_cancel (a b c : String) (h : a ++ c = b ++ c) : a = b := by
  have h2 := congrArg String.data h
  simp only [String.data_append] at h2
  exact String.ext (List.append_cancel_right h2)

theorem string_append_left_cancel (a b c : String) (h : a ++ b = a ++ c) : b = c := by
  have h2 := congrArg String.data h
  simp only [String.data_append] at h2
  exact String.ext (List.append_cancel_left h2)

theorem fullURL_eq (account : String) (truncated : Bool) :
    fullURL account truncated
      = apiURL ++ account ++ (if truncated then "?truncateResponse=true"
          else "?truncateResponse=false") := by
  cases truncated <;> rfl

theorem fullURL_true_ne_false (account : String) :
    apiURL ++ account ++ "?truncateResponse=false"
      ≠ apiURL ++ account ++ "?truncateResponse=true" := by
  intro h
  have := string_append_left_cancel _ _ _ h
  exact absurd this (by decide)

theorem requestedURLs_parseResponseBody {Breach : Type} (widget : Widget Breach)
    (net : Net Breach) (account : String) (body : List UInt8) :
    requestedURLs (parseResponseBody widget net account body).calls = [] := by
  unfold parseResponseBody
  split
  · rfl
  · split <;> rfl

theorem account_beq_false (account : String) (h : account ≠ "") : (account == "") = false := by
  simpa using h

theorem requestedURLs_fetchForAccount {Breach : Type} (widget : Widget Breach)
    (net : Net Breach) (account since : String) (hacc : account ≠ "") :
    requestedURLs (fetchForAccount widget net account since).calls
      = [fullURL account (if since != "" then false else true)] := by
  unfold fetchForAccount
  simp only [account_beq_false account hacc, Bool.false_eq_true, if_false]
  split
  · rfl
  · split
    · rfl
    · split
      · rfl
      · have hp := requestedURLs_parseResponseBody widget net account ‹List UInt8›
        split <;> simp [requestedURLs, hp]

theorem takeWhile_of_all (p : Char → Bool) (l : List Char) (h : ∀ x ∈ l, p x = true) :
    l.takeWhile p = l := by
  induction l with
  | nil => rfl
  | cons x xs ih =>
    have hx : p x = true := h x (List.mem_cons_self x xs)
    rw [List.takeWhile_cons, hx]
    simp only [if_true]
    rw [ih (fun y hy => h y (List.mem_cons_of_mem x hy))]

theorem dropWhile_append_stop (p : Char → Bool) (pre : List Char) (c : Char)
    (rest : List Char) (hpre : ∀ x ∈ pre, p x = true) (hc : p c = false) :
    (pre ++ c :: rest).dropWhile p = c :: rest := by
  induction pre with
  | nil => simp [List.dropWhile_cons, hc]
  | cons x xs ih =>
    have hx : p x = true := hpre x (List.mem_cons_self x xs)
    rw [List.cons_append, List.dropWhile_cons, hx]
    simp only [if_true]
    exact ih (fun y hy => hpre y (List.mem_cons_of_mem x hy))

theorem queryOf_of_clean (account flag : String)
    (hq : '?' ∉ account.data) (hf : '#' ∉ account.data)
    (hflag : ∀ x ∈ flag.data, x ≠ '#') :
    queryOf (apiURL ++ account ++ String.mk ('?' :: flag.data)) = some flag := by
  have hapi : ∀ x ∈ apiURL.data, x ≠ '#' ∧ x ≠ '?' := by decide
  have hpre1 : ∀ x ∈ apiURL.data ++ account.data, (x != '#') = true := by
    intro x hx
    rcases List.mem_append.mp hx with h | h
    · simpa using (hapi x h).1
    · have : x ≠ '#' := fun e => hf (e ▸ h)
      simpa using this
  have hpre2 : ∀ x ∈ apiURL.data ++ account.data, (x != '?') = true := by
    intro x hx
    rcases List.mem_append.mp hx with h | h
    · simpa using (hapi x h).2
    · have : x ≠ '?' := fun e => hq (e ▸ h)
      simpa using this
  have hall : ∀ x ∈ (apiURL.data ++ account.data) ++ '?' :: flag.data, (x != '#') = true := by
    intro x hx
    rcases List.mem_append.mp hx with h | h
    · exact hpre1 x h
    · rcases List.mem_cons.mp h with h | h
      · subst h; decide
      · simpa using hflag x h
  unfold queryOf
  simp only [String.data_append]
  rw [takeWhile_of_all _ _ hall, dropWhile_append_stop _ _ '?' _ hpre2 (by decide)]

theorem sentRequests_parseResponseBody {Breach : Type} (widget : Widget Breach)
    (net : Net Breach) (account : String) (body : List UInt8) :
    sentRequests (parseResponseBody widget net account body).calls = [] := by
  unfold parseResponseBody
  split
  · rfl
  · split <;> rfl

theorem sentRequests_fetchForAccount_error {Breach : Type} (widget : Widget Breach)
    (net : Net Breach) (account since : String) (e : GoError) (hacc : account ≠ "")
    (hNew : net.NewRequest "GET" (fullURL account (if since != "" then false else true))
      = .error e) :
    sentRequests (fetchForAccount widget net account since).calls = [] := by
  unfold fetchForAccount
  simp only [account_beq_false account hacc, Bool.false_eq_true, if_false, hNew]
  rfl

theorem sentRequests_fetchForAccount_ok {Breach : Type} (widget : Widget Breach)
    (net : Net Breach) (account since : String) (request : Request) (hacc : account ≠ "")
    (hNew : net.NewRequest "GET" (fullURL account (if since != "" then false else true))
      = .ok request) :
    sentRequests (fetchForAccount widget net account since).calls
      = [(request.Set "Accept" apiVersion).Set "User-Agent" userAgent] := by
  unfold fetchForAccount
  simp only [account_beq_false account hacc, Bool.false_eq_true, if_false, hNew]
  split
  · rfl
  · split
    · rfl
    · have hp := sentRequests_parseResponseBody widget net account ‹List UInt8›
      split <;> simp [sentRequests, hp]

theorem truncated_flag_eq (since : String) :
    (if since != "" then false else true) = decide (since = "") := by
  by_cases hs : since = ""
  · subst hs; rfl
  · have hb : (since != "") = true := by simpa using hs
    simp [hb, hs]

/-- Counterexample to C4 as stated: for the non-empty account `a#b` and the empty
since, the request that is sent has a URL with no query at all, the flag standing
in the fragment; and for the account `x?truncateResponse=false&y=` and the empty
since, the query of the request sent begins with the flag `truncateResponse=false`.
In neither case is the query of the request `truncateResponse=true`. -/
theorem fetchForAccount_truncation_counterexample :
    ¬ ((sentRequests (fetchForAccount (widgetOf "") (netOf (.ok ⟨.ok []⟩) (.ok []))
          "a#b" "").calls).map (fun request => queryOf request.URL)
        = [some "truncateResponse=true"] ↔ ("" : String) = "")
    ∧ (sentRequests (fetchForAccount (widgetOf "") (netOf (.ok ⟨.ok []⟩) (.ok []))
          "a#b" "").calls).map (fun request => (request.URL, queryOf request.URL))
        = [("https://haveibeenpwned.com/api/breachedaccount/a#b?truncateResponse=true", none)]
    ∧ (sentRequests (fetchForAccount (widgetOf "") (netOf (.ok ⟨.ok []⟩) (.ok []))
          "x?truncateResponse=false&y=" "").calls).map (fun request => queryOf request.URL)
        = [some "truncateResponse=false&y=?truncateResponse=true"] := by
  refine ⟨?_, rfl, rfl⟩
  intro h
  exact absurd (h.mpr rfl) (by decide)

/-- C4, amended: for a non-empty account, `fetchForAccount` hands to `http.NewRequest`
one URL text, `fullURL` of the account with the truncated flag set exactly when the
since argument is empty.  When `http.NewRequest` fails no request is sent.  When it
builds a request, exactly one request is sent, that request with the two headers
set; and if the request carries the URL it was built from and the account contains
neither `?` nor `#`, the query of the request sent is `truncateResponse=true` if and
only if since is the empty string, and `truncateResponse=false` for every non-empty
since. -/
theorem fetchForAccount_truncation_sent {Breach : Type} (widget : Widget Breach)
    (net : Net Breach) (account since : String) (hacc : account ≠ "") :
    requestedURLs (fetchForAccount widget net account since).calls
        = [fullURL account (decide (since = ""))]
    ∧ (∀ e, net.NewRequest "GET" (fullURL account (decide (since = ""))) = .error e →
        sentRequests (fetchForAccount widget net account since).calls = [])
    ∧ (∀ request, net.NewRequest "GET" (fullURL account (decide (since = ""))) = .ok request →
        sentRequests (fetchForAccount widget net account since).calls
            = [(request.Set "Accept" apiVersion).Set "User-Agent" userAgent]
        ∧ ((request.Set "Accept" apiVersion).Set "User-Agent" userAgent).URL = request.URL
        ∧ ((request.Set "Accept" apiVersion).Set "User-Agent" userAgent).Method
            = request.Method
        ∧ (request.URL = fullURL account (decide (since = "")) →
            '?' ∉ account.data → '#' ∉ account.data →
            ((sentRequests (fetchForAccount widget net account since).calls).map
                (fun sent => queryOf sent.URL) = [some "truncateResponse=true"]
              ↔ since = "")
            ∧ (since ≠ "" →
                (sentRequests (fetchForAccount widget net account since).calls).map
                  (fun sent => queryOf sent.URL) = [some "truncateResponse=false"]))) := by
  have hflagT : ∀ x ∈ "truncateResponse=true".data, x ≠ '#' := by decide
  have hflagF : ∀ x ∈ "truncateResponse=false".data, x ≠ '#' := by decide
  refine ⟨?_, ?_, ?_⟩
  · rw [requestedURLs_fetchForAccount widget net account since hacc, truncated_flag_eq]
  · intro e hNew
    rw [← truncated_flag_eq] at hNew
    exact sentRequests_fetchForAccount_error widget net account since e hacc hNew
  · intro request hNew
    have hNew2 := hNew
    rw [← truncated_flag_eq] at hNew2
    have hsent := sentRequests_fetchForAccount_ok widget net account since request hacc hNew2
    refine ⟨hsent, rfl, rfl, ?_⟩
    intro hURL hq hf
    have hmap : (sentRequests (fetchForAccount widget net account since).calls).map
        (fun sent => queryOf sent.URL) = [queryOf (fullURL account (decide (since = "")))] := by
      rw [hsent]
      show [queryOf request.URL] = _
      rw [hURL]
    rw [hmap]
    by_cases hs : since = ""
    · subst hs
      have hqT : queryOf (fullURL account (decide (("" : String) = "")))
          = some "truncateResponse=true" :=
        queryOf_of_clean account "truncateResponse=true" hq hf hflagT
      rw [hqT]
      exact ⟨⟨fun _ => rfl, fun _ => rfl⟩, fun hne => absurd rfl hne⟩
    · have hd : decide (since = "") = false := by simpa using hs
      have hqF : queryOf (fullURL account (decide (since = "")))
          = some "truncateResponse=false" := by
        rw [hd]
        exact queryOf_of_clean account "truncateResponse=false" hq hf hflagF
      rw [hqF]
      refine ⟨⟨fun heq => ?_, fun he => absurd he hs⟩, fun _ => rfl⟩
      exact absurd heq (by decide)

/-- Witness of C4, amended: for the account `a@b.c` and the empty since, one request
is sent, and its query is `truncateResponse=true`. -/
theorem fetchForAccount_truncation_sent_witness :
    (sentRequests (fetchForAccount (widgetOf "") (netOf (.ok ⟨.ok []⟩) (.ok []))
        "a@b.c" "").calls).map (fun sent => queryOf sent.URL)
      = [some "truncateResponse=true"] :=
  (((fetchForAccount_truncation_sent (widgetOf "") (netOf (.ok ⟨.ok []⟩) (.ok [])) "a@b.c" ""
    (by decide)).2.2 _ rfl).2.2.2 rfl (by decide) (by decide)).1.mpr rfl

/-- C6: on an empty body `parseResponseBody` returns no error and the status of the
account with zero breach records, and it makes no library call: the body is not
handed to the JSON decoder, whatever that decoder would answer. -/
theorem parseResponseBody_empty {Breach : Type} (widget : Widget Breach) (net : Net Breach)
    (account : String) :
    (parseResponseBody widget net account []).err = none
    ∧ (parseResponseBody widget net account []).stat = some (NewStatus account [])
    ∧ (∃ st, (parseResponseBody widget net account []).stat = some st
        ∧ st.Account = account ∧ st.Breaches.length = 0)
    ∧ (parseResponseBody widget net account []).calls = []
    ∧ unmarshalledBodies (parseResponseBody widget net account []).calls = [] :=
  ⟨rfl, rfl, ⟨NewStatus account [], rfl, rfl, rfl⟩, rfl, rfl⟩

/-- C7: on a non-empty body `parseResponseBody` hands the body to the JSON decoder
once; it returns an error and no status if and only if the decoder fails, the
error being the decoder's; when the decoder succeeds it returns no error and the
status of the account whose records are `filterBreaches` of the decoded records. -/
theorem parseResponseBody_nonempty {Breach : Type} (widget : Widget Breach)
    (net : Net Breach) (account : String) (body : List UInt8) (hbody : body ≠ []) :
    (((parseResponseBody widget net account body).err ≠ none
        ∧ (parseResponseBody widget net account body).stat = none)
      ↔ ∃ e, net.Unmarshal body = .error e)
    ∧ (∀ e, net.Unmarshal body = .error e →
        (parseResponseBody widget net account body).err = some e
        ∧ (parseResponseBody widget net account body).stat = none)
    ∧ (∀ parsed, net.Unmarshal body = .ok parsed →
        (parseResponseBody widget net account body).err = none
        ∧ (parseResponseBody widget net account body).stat
            = some (NewStatus account (filterBreaches widget parsed)))
    ∧ unmarshalledBodies (parseResponseBody widget net account body).calls = [body] := by
  have hlen : (body.length == 0) = false := by
    cases body with
    | nil => exact absurd rfl hbody
    | cons x xs => rfl
  unfold parseResponseBody
  simp only [hlen, Bool.false_eq_true, if_false]
  cases hu : net.Unmarshal body with
  | error e => simp [unmarshalledBodies]
  | ok parsed => simp [unmarshalledBodies]

/-- Witness of C7: a two-byte body that decodes to two records, filtered by the
since boundary `2023-01-01`. -/
theorem parseResponseBody_nonempty_witness :
    (parseResponseBody (widgetOf "2023-01-01")
        (netOf (.ok ⟨.ok [91, 93]⟩) (.ok [⟨"a", "2022-01-01"⟩, ⟨"b", "2024-01-01"⟩]))
        "a@b.c" [91, 93]).err = none
    ∧ (parseResponseBody (widgetOf "2023-01-01")
        (netOf (.ok ⟨.ok [91, 93]⟩) (.ok [⟨"a", "2022-01-01"⟩, ⟨"b", "2024-01-01"⟩]))
        "a@b.c" [91, 93]).stat
      = some (NewStatus "a@b.c" (filterBreaches (widgetOf "2023-01-01")
          [⟨"a", "2022-01-01"⟩, ⟨"b", "2024-01-01"⟩])) :=
  (parseResponseBody_nonempty (widgetOf "2023-01-01")
    (netOf (.ok ⟨.ok [91, 93]⟩) (.ok [⟨"a", "2022-01-01"⟩, ⟨"b", "2024-01-01"⟩]))
    "a@b.c" [91, 93] (by decide)).2.2.1 _ rfl

end hibp

namespace hibp

theorem fetchForAccount_failure {Breach : Type} (widget : Widget Breach) (net : Net Breach)
    (account since : String) (request : Request) (hacc : account ≠ "")
    (hreq : net.NewRequest "GET" (fullURL account (if since != "" then false else true))
      = .ok request)
    (hfail : (∃ getErr, net.Do clientTimeoutSecs
          ((request.Set "Accept" apiVersion).Set "User-Agent" userAgent) = .error getErr)
      ∨ (∃ response readErr, net.Do clientTimeoutSecs
          ((request.Set "Accept" apiVersion).Set "User-Agent" userAgent) = .ok response
          ∧ response.Body = .error readErr)) :
    (fetchForAccount widget net account since).err = none
    ∧ (fetchForAccount widget net account since).stat = none := by
  unfold fetchForAccount
  simp only [account_beq_false account hacc, Bool.false_eq_true, if_false, hreq]
  rcases hfail with ⟨getErr, hdo⟩ | ⟨response, readErr, hdo, hbody⟩
  · simp [hdo]
  · simp [hdo, hbody]

/-- C1 (the code departs from it): for the account `a@b.c`, when `hibpClient.Do`
fails with a timeout, and likewise when reading the body fails, `fetchForAccount`
returns `nil` for the status and `nil` for the error, having made the request. -/
theorem fetchForAccount_failure_returns_nil_nil :
    (fetchForAccount (widgetOf "") (netOf (.error "net/http: timeout") (.ok [])) "a@b.c" "").err
      = none
    ∧ (fetchForAccount (widgetOf "") (netOf (.error "net/http: timeout") (.ok []))
        "a@b.c" "").stat.isNone = true
    ∧ (fetchForAccount (widgetOf "") (netOf (.error "net/http: timeout") (.ok []))
        "a@b.c" "").calls
      = [.NewRequest "GET"
            "https://haveibeenpwned.com/api/breachedaccount/a@b.c?truncateResponse=true",
          .Do 2 { Method := "GET"
                  URL := "https://haveibeenpwned.com/api/breachedaccount/a@b.c?truncateResponse=true"
                  Header := [("User-Agent", "WTFUtil"),
                    ("Accept", "application/vnd.haveibeenpwned.v2+json")] }]
    ∧ (fetchForAccount (widgetOf "") (netOf (.ok ⟨.error "unexpected EOF"⟩) (.ok []))
        "a@b.c" "").err = none
    ∧ (fetchForAccount (widgetOf "") (netOf (.ok ⟨.error "unexpected EOF"⟩) (.ok []))
        "a@b.c" "").stat.isNone = true :=
  ⟨rfl, rfl, rfl, rfl, rfl⟩

/-- Counterexample to C5 as stated: for the account `a b?c#d/e` the URL `fullURL`
returns is not the base endpoint followed by a percent-encoded text followed by
the flag. -/
theorem fullURL_not_encoded :
    ¬ ∃ enc : String, percentEncoded enc = true
        ∧ fullURL "a b?c#d/e" true = apiURL ++ enc ++ "?truncateResponse=true" := by
  rintro ⟨enc, henc, h⟩
  rw [fullURL_eq] at h
  have h1 := string_append_right_cancel _ _ _ h
  have h2 := string_append_left_cancel _ _ _ h1
  rw [← h2] at henc
  exact absurd henc (by decide)

/-- C5, amended: `fullURL` returns the base endpoint followed by the account as it
is, with no encoding, followed by `?truncateResponse=true` when truncated is true
and `?truncateResponse=false` otherwise; the part between the endpoint and the
flag is in percent-encoded form exactly when the account itself is. -/
theorem fullURL_verbatim (account : String) (truncated : Bool) :
    fullURL account truncated
      = "https://haveibeenpwned.com/api/breachedaccount/" ++ account
          ++ (if truncated then "?truncateResponse=true" else "?truncateResponse=false")
    ∧ ((∃ enc : String, percentEncoded enc = true
          ∧ fullURL account truncated = apiURL ++ enc
              ++ (if truncated then "?truncateResponse=true" else "?truncateResponse=false"))
        ↔ percentEncoded account = true) := by
  refine ⟨fullURL_eq account truncated, ?_, ?_⟩
  · rintro ⟨enc, henc, h⟩
    rw [fullURL_eq] at h
    have h1 := string_append_right_cancel _ _ _ h
    have h2 := string_append_left_cancel _ _ _ h1
    rw [h2]; exact henc
  · intro h
    exact ⟨account, h, fullURL_eq account truncated⟩

end hibp

/-! ## Theorems: `todoist.display` -/

namespace todoist

theorem display_of_project (widget : Widget) (proj : Project)
    (h : widget.CurrentProject = some proj) :
    display widget = some { title := "[green]" ++ proj.Project.Name ++ "[white]"
                            text := displayLoop widget 0 "" proj.tasks
                            wrap := false } := by
  unfold display
  rw [h]

/-- C9 (the code departs from it): for the project named `[red]x` with the one task
`[blue]t`, whatever the escaping function, the row colours and the highlight helper
are, `display` hands to `Redraw` the title `[green][red]x[white]`, the project name
as it is, while the row of the task holds the task content escaped. -/
theorem display_title_not_escaped :
    ∀ (rowColor : Nat → String) (escape : String → String)
      (helper : String → Nat → Nat → String),
      Option.map Redraw.title (display
          { CurrentProject := some { Project := { Name := "[red]x" }
                                     tasks := [{ Content := "[blue]t" }] }
            RowColor := rowColor, Escape := escape, HighlightableHelper := helper })
        = some "[green][red]x[white]"
      ∧ Option.map Redraw.text (display
          { CurrentProject := some { Project := { Name := "[red]x" }
                                     tasks := [{ Content := "[blue]t" }] }
            RowColor := rowColor, Escape := escape, HighlightableHelper := helper })
        = some ("" ++ helper ("[" ++ rowColor 0 ++ "]| | " ++ escape "[blue]t"
            ++ "[" ++ rowColor 0 ++ "]") 0 7) := by
  intro rowColor escape helper
  exact ⟨rfl, rfl⟩

end todoist

/-! ## Theorems: `cfg.expandHomeDir` -/

namespace cfg

theorem expandHomeDir_unchanged (os : OS) (path : String)
    (h : path.data = [] ∨ path.data.head? ≠ some '~') :
    expandHomeDir os path = (path, none) := by
  unfold expandHomeDir
  cases hd : path.data with
  | nil => simp
  | cons c rest =>
    rw [hd] at h
    have hc : c ≠ '~' := by simpa using h
    simp [hc]

theorem expandHomeDir_user_specific (os : OS) (path : String) (c : Char) (rest : List Char)
    (hd : path.data = '~' :: c :: rest) (h1 : c ≠ '/') (h2 : c ≠ '\\') :
    expandHomeDir os path = ("", some "cannot expand user-specific home dir") := by
  unfold expandHomeDir
  simp [hd, h1, h2]

theorem expandHomeDir_home (os : OS) (path : String)
    (h : path.data = ['~'] ∨ ∃ c rest, path.data = '~' :: c :: rest ∧ (c = '/' ∨ c = '\\')) :
    expandHomeDir os path
      = match home os with
        | (_, some err) => ("", some err)
        | (dir, none) => (os.Join [dir, String.mk (path.data.drop 1)], none) := by
  unfold expandHomeDir
  rcases h with h | ⟨c, rest, h, hc | hc⟩
  · simp [h]
  · simp [h, hc]
  · simp [h, hc]

/-- C10: `expandHomeDir` returns an empty path, or a path whose first character is
not `~`, unchanged and with no error, whatever the home directory lookup would
answer; for a path of more than one character that starts with `~` followed by a
character other than `/` and `\\` it returns an error; and for the path `~`, or a path
that starts with `~` followed by `/` or `\\`, it returns the home directory joined with
the rest of the path after the `~`, or the error of the home lookup. -/
theorem expandHomeDir_spec (os : OS) (path : String) :
    ((path.data = [] ∨ path.data.head? ≠ some '~') →
        ∀ os2 : OS, expandHomeDir os2 path = (path, none))
    ∧ (∀ c rest, path.data = '~' :: c :: rest → c ≠ '/' → c ≠ '\\' →
        expandHomeDir os path = ("", some "cannot expand user-specific home dir"))
    ∧ ((path.data = ['~'] ∨ ∃ c rest, path.data = '~' :: c :: rest ∧ (c = '/' ∨ c = '\\')) →
        (∀ dir, home os = (dir, none) →
          expandHomeDir os path = (os.Join [dir, String.mk (path.data.drop 1)], none))
        ∧ (∀ dir err, home os = (dir, some err) → expandHomeDir os path = ("", some err))) := by
  refine ⟨fun h os2 => expandHomeDir_unchanged os2 path h,
    fun c rest hd h1 h2 => expandHomeDir_user_specific os path c rest hd h1 h2, fun h => ?_⟩
  have hh := expandHomeDir_home os path h
  refine ⟨fun dir hdir => ?_, fun dir err hdir => ?_⟩
  · rw [hh, hdir]
  · rw [hh, hdir]

/-- Witness of C10: with the home directory `/home/u`, the path `~/.config/wtf/` is
expanded to the join of the home directory and `/.config/wtf/`. -/
theorem expandHomeDir_spec_witness :
    expandHomeDir { Current := .ok { HomeDir := "/home/u" }, Join := String.join }
        "~/.config/wtf/"
      = ("/home/u/.config/wtf/", none) :=
  ((expandHomeDir_spec { Current := .ok { HomeDir := "/home/u" }, Join := String.join }
      "~/.config/wtf/").2.2 (Or.inr ⟨'/', ".config/wtf/".data, rfl, Or.inl rfl⟩)).1
    "/home/u" rfl

end cfg
